import Mathlib

/-!
Shallow embedding of the DeFi news MCP server's caching and retrieval engine:
the Redis-backed article store (key-value entries with TTL expiry plus a
sorted-set index), the deduplication gate, the ingestion sweep, the
cache-first search resolver with live-provider fallback, and the content
extraction handler.  Redis sorted-set semantics (rank order, negative range
positions, range-by-rank trimming) are modelled explicitly; JavaScript `||`
defaulting is modelled with its falsy cases.
-/

namespace NewsMcp

/-- A cached news article (types/index.ts, NewsArticle). -/
structure NewsArticle where
  id : String
  title : String
  url : String
  content : String
  summary : String
  publishedDate : String
  source : String
  score : Rat
  timestamp : Nat
deriving DecidableEq, Repr

/-- JavaScript `x || d` for an optional numeric argument: absent and `0` are falsy. -/
def jsOrNat (o : Option Nat) (d : Nat) : Nat :=
  match o with
  | none => d
  | some 0 => d
  | some m => m

/-- JavaScript `s || d` for an optional string: absent and the empty string are falsy. -/
def jsOrStr (o : Option String) (d : String) : String :=
  match o with
  | none => d
  | some s => if s = "" then d else s

/-- JavaScript `x || 0.5` applied to an optional provider score: absent and `0` are falsy. -/
def jsOrScore (o : Option Rat) : Rat :=
  match o with
  | none => 1/2
  | some v => if v = 0 then 1/2 else v

/-- Leading-match test: does the second list start with the first one. -/
def leadMatch : List Char → List Char → Bool
  | [], _ => true
  | _ :: _, [] => false
  | a :: as, b :: bs => a == b && leadMatch as bs

/-- Contiguous-sublist test on character lists. -/
def subListNdl (n : List Char) : List Char → Bool
  | [] => n.isEmpty
  | c :: cs => leadMatch n (c :: cs) || subListNdl n cs

/-- JavaScript `hay.includes(needle)`. -/
def strIncl (hay needle : String) : Bool :=
  subListNdl needle.data hay.data

/-- Strict lexicographic order on character lists, as Redis orders equal-score
members of a sorted set. -/
def listLtb : List Char → List Char → Bool
  | [], [] => false
  | [], _ :: _ => true
  | _ :: _, [] => false
  | a :: as, b :: bs =>
    if a < b then true
    else if b < a then false
    else listLtb as bs

/-- Strict lexicographic order on strings. -/
def strLtb (a b : String) : Bool := listLtb a.data b.data

/-- Strict order on `(score, member)` pairs: the rank order of the Redis
sorted set (score first, member lexicographic on ties). -/
def pairLtb (e f : Nat × String) : Bool :=
  decide (e.1 < f.1) || (decide (e.1 = f.1) && strLtb e.2 f.2)

/-- Propositional form of `pairLtb`. -/
def pairLtP (e f : Nat × String) : Prop := pairLtb e f = true

/-- Ordered insertion into the rank-sorted entry list of the sorted set. -/
def zinsert (e : Nat × String) : List (Nat × String) → List (Nat × String)
  | [] => [e]
  | f :: t => if pairLtb e f then e :: f :: t else f :: zinsert e t

/-- Redis ZADD: update the member's score (removing any previous entry for
the same member) and place it at its rank position. -/
def zadd (idx : List (Nat × String)) (score : Nat) (member : String) : List (Nat × String) :=
  zinsert (score, member) (idx.filter (fun e => e.2 != member))

/-- The last `n` elements of a list (the entries of rank `len - n` and above). -/
def lastK {α : Type _} (n : Nat) (l : List α) : List α := l.drop (l.length - n)

/-- Redis `ZREMRANGEBYRANK key 0 -1001`: evict everything below the top 1000 ranks. -/
def trimIndex (idx : List (Nat × String)) : List (Nat × String) :=
  idx.drop (idx.length - 1000)

/-- A stored article value together with its Redis key expiry instant. -/
structure Stored where
  article : NewsArticle
  expireAt : Nat
deriving DecidableEq, Repr

/-- The Redis state used by the service: the article keys, the sorted-set
index kept in ascending rank order, and the last-fetch marker. -/
structure Store where
  articles : List (String × Stored)
  index : List (Nat × String)
  lastFetch : Nat
deriving DecidableEq, Repr

/-- The initial empty backing store. -/
def emptyStore : Store := ⟨[], [], 0⟩

/-- Redis SET on an article key: overwrite the binding for that id. -/
def setArticle (k : String) (v : Stored) (l : List (String × Stored)) : List (String × Stored) :=
  (k, v) :: l.filter (fun e => e.1 != k)

/-- Redis GET on an article key, ignoring expiry. -/
def lookupArticle (k : String) (l : List (String × Stored)) : Option Stored :=
  (l.find? (fun e => e.1 == k)).map (fun e => e.2)

/-- Seconds in `newsCacheTtlDays` days. -/
def ttlSecs (ttlDays : Nat) : Nat := ttlDays * 24 * 60 * 60

/-- redis.ts storeNewsArticle: SET the article, EXPIRE it after the TTL,
ZADD `(timestamp, id)` to the index and trim the index to 1000 entries. -/
def storeNewsArticle (ttlDays now : Nat) (a : NewsArticle) (s : Store) : Store :=
  { s with
    articles := setArticle a.id ⟨a, now + ttlSecs ttlDays⟩ s.articles
    index := trimIndex (zadd s.index a.timestamp a.id) }

/-- Redis ZREVRANGE positions resolved to the descending-rank entry list.
Negative positions count from the end; the start is clamped at 0; a start
past the stop or past the end yields the empty range; the stop is clamped
at the last element. -/
def zrevrangeEntries (idx : List (Nat × String)) (start stop : Int) : List (Nat × String) :=
  let rev := idx.reverse
  let n : Int := rev.length
  let s1 : Int := max (if start < 0 then n + start else start) 0
  let e1 : Int := min (if stop < 0 then n + stop else stop) (n - 1)
  if s1 > e1 ∨ s1 ≥ n then []
  else (rev.drop s1.toNat).take (e1 - s1 + 1).toNat

/-- Redis ZREVRANGE: the member ids between two ranks, newest first. -/
def zrevrange (idx : List (Nat × String)) (start stop : Int) : List String :=
  (zrevrangeEntries idx start stop).map (fun e => e.2)

/-- redis.ts getNewsArticle: GET by id; an expired key reads as absent. -/
def getNewsArticle (id : String) (now : Nat) (s : Store) : Option NewsArticle :=
  match lookupArticle id s.articles with
  | none => none
  | some st => if now < st.expireAt then some st.article else none

/-- redis.ts getNewsArticles: ZREVRANGE the requested rank window, resolve
the ids, and silently drop entries whose key has expired. -/
def getNewsArticles (limit offset now : Nat) (s : Store) : List NewsArticle :=
  let articleIds := zrevrange s.index (offset : Int) ((offset : Int) + (limit : Int) - 1)
  articleIds.filterMap (fun id => getNewsArticle id now s)

/-- All live articles reachable through the index, newest first (the scan
shared by searchNewsArticles and articleExists). -/
def liveArticles (now : Nat) (s : Store) : List NewsArticle :=
  (zrevrange s.index 0 (-1)).filterMap (fun id => getNewsArticle id now s)

/-- The case-insensitive substring test of searchNewsArticles: the query
must appear in the title, the content or the summary. -/
def matchPred (query : String) (a : NewsArticle) : Bool :=
  strIncl a.title.toLower query.toLower ||
  strIncl a.content.toLower query.toLower ||
  strIncl a.summary.toLower query.toLower

/-- The live indexed articles matching a query, newest first (the filtered
list searchNewsArticles builds before slicing). -/
def cacheMatches (query : String) (now : Nat) (s : Store) : List NewsArticle :=
  (liveArticles now s).filter (matchPred query)

/-- redis.ts searchNewsArticles: scan every live indexed article for the
query and return the first `limit` matches. -/
def searchNewsArticles (query : String) (limit now : Nat) (s : Store) : List NewsArticle :=
  (cacheMatches query now s).take limit

/-- redis.ts articleExists: does any live indexed article carry the same
title under case-insensitive comparison. -/
def articleExists (title : String) (now : Nat) (s : Store) : Bool :=
  (liveArticles now s).any (fun a => a.title.toLower == title.toLower)

/-- redis.ts storeLastFetchTime. -/
def storeLastFetchTime (ts : Nat) (s : Store) : Store := { s with lastFetch := ts }

/-- redis.ts getLastFetchTime (0 when never set). -/
def getLastFetchTime (s : Store) : Nat := s.lastFetch

/-- A Tavily search result as the service reads it. -/
structure SearchResult where
  title : String
  url : String
  content : String
  snippet : Option String
  publishedDate : Option String
  score : Option Rat
deriving DecidableEq, Repr

/-- `new URL(u).hostname`, simplified to splitting off scheme and path. -/
def urlHostname (u : String) : String :=
  (((u.splitOn "://").getD 1 u).splitOn "/").headD ""

/-- Article construction shared by processQuery and handleTargetedSearch:
generated id, snippet-or-truncation summary, hostname source, `|| 0.5`
score default, ingestion-time timestamp. -/
def buildArticle (uuid nowIso : String) (now : Nat) (r : SearchResult) : NewsArticle :=
  { id := uuid
    title := r.title
    url := r.url
    content := r.content
    summary := jsOrStr r.snippet (r.content.take 300 ++ "...")
    publishedDate := jsOrStr r.publishedDate nowIso
    source := urlHostname r.url
    score := jsOrScore r.score
    timestamp := now }

/-- The store-new-results loop shared by processQuery and the resolver
fallback: skip results whose title already exists, build and store the rest.
Returns the final store and the articles stored, threading the uuid counter. -/
def ingestResults (uuid : Nat → String) (nowIso : String) (now ttlDays : Nat) :
    List SearchResult → Nat → Store → Store × List NewsArticle
  | [], _, s => (s, [])
  | r :: rest, ctr, s =>
    if articleExists r.title now s then
      ingestResults uuid nowIso now ttlDays rest ctr s
    else
      let a := buildArticle (uuid ctr) nowIso now r
      let p := ingestResults uuid nowIso now ttlDays rest (ctr + 1) (storeNewsArticle ttlDays now a s)
      (p.1, a :: p.2)

/-- news-fetcher.ts processQuery: search the provider and store the new
results; a provider failure is caught and leaves the store unchanged. -/
def processQuery (uuid : Nat → String) (nowIso : String) (now ttlDays : Nat)
    (provider : String → Except String (List SearchResult))
    (query : String) (ctr : Nat) (s : Store) : Store × Nat :=
  match provider query with
  | Except.error _ => (s, ctr)
  | Except.ok rs =>
    let p := ingestResults uuid nowIso now ttlDays rs ctr s
    (p.1, ctr + p.2.length)

/-- news-fetcher.ts fetchLatestNews: skip when a sweep is already running,
otherwise mark the sweep start time, process every query (per-query failures
isolated) and reset the running flag on every exit path.  Returns the final
flag, the final store and the list of queries handed to the provider. -/
def fetchLatestNews (running : Bool) (uuid : Nat → String) (nowIso : String)
    (now ttlDays : Nat) (provider : String → Except String (List SearchResult))
    (queries : List String) (s : Store) : Bool × Store × List String :=
  if running then (true, s, [])
  else
    let s1 := storeLastFetchTime now s
    let p := queries.foldl
      (fun acc q =>
        let r := processQuery uuid nowIso now ttlDays provider q acc.2 acc.1
        (r.1, r.2))
      (s1, 0)
    (false, p.1, queries)

/-- The per-result shape of the search and latest-news tool responses. -/
structure DisplayResult where
  title : String
  url : String
  content : String
  publishedDate : String
  source : String
deriving DecidableEq, Repr

/-- Cached articles are displayed with the summary as content. -/
def displayCache (a : NewsArticle) : DisplayResult :=
  ⟨a.title, a.url, a.summary, a.publishedDate, a.source⟩

/-- Live provider results are displayed with the snippet-or-truncation as
content and a derived date and hostname. -/
def displayLive (nowIso : String) (r : SearchResult) : DisplayResult :=
  ⟨r.title, r.url, jsOrStr r.snippet (r.content.take 300 ++ "..."),
   jsOrStr r.publishedDate nowIso, urlHostname r.url⟩

/-- The payload of a targeted-search response. -/
structure SearchOutput where
  source : String
  query : String
  results : List DisplayResult
deriving DecidableEq, Repr

/-- Arguments of the targeted-search tool. -/
structure TargetedSearchArgs where
  query : String
  maxResults : Option Nat
deriving DecidableEq, Repr

/-- The observable outcome of handleTargetedSearch: the response or error,
the resulting store, and whether the live provider was invoked. -/
structure ResolveResult where
  output : Except String SearchOutput
  store : Store
  providerInvoked : Bool

/-- index.ts handleTargetedSearch: reject an empty query; serve from the
cache when it holds at least `maxResults || 5` matches; otherwise call the
live provider, store its new results and answer with the provider list. -/
def handleTargetedSearch (uuid : Nat → String) (ctr : Nat) (nowIso : String)
    (ttlDays now : Nat) (provider : String → Except String (List SearchResult))
    (args : TargetedSearchArgs) (s : Store) : ResolveResult :=
  if args.query = "" then ⟨Except.error "Query is required", s, false⟩
  else
    let maxR := jsOrNat args.maxResults 5
    let cachedResults := searchNewsArticles args.query maxR now s
    if maxR ≤ cachedResults.length then
      ⟨Except.ok ⟨"cache", args.query, cachedResults.map displayCache⟩, s, false⟩
    else
      match provider args.query with
      | Except.error e => ⟨Except.error ("Search failed: " ++ e), s, true⟩
      | Except.ok rs =>
        let p := ingestResults uuid nowIso now ttlDays rs ctr s
        ⟨Except.ok ⟨"tavily", args.query, rs.map (displayLive nowIso)⟩, p.1, true⟩

/-- A Tavily extract result. -/
structure ExtractResult where
  title : String
  content : String
  publishedDate : Option String
deriving DecidableEq, Repr

/-- The payload of a full-content response. -/
structure ExtractOutput where
  url : String
  title : String
  content : String
  publishedDate : Option String
deriving DecidableEq, Repr

/-- index.ts handleGetFullContent: reject an empty url, pass through to the
live extraction provider, and fail when it returns no results; the store is
never touched. -/
def handleGetFullContent (url : String)
    (provider : String → Except String (List ExtractResult)) (s : Store) :
    Except String ExtractOutput × Store :=
  if url = "" then (Except.error "URL is required", s)
  else
    match provider url with
    | Except.error e => (Except.error ("Content extraction failed: " ++ e), s)
    | Except.ok [] =>
      (Except.error "Content extraction failed: No content found for the provided URL", s)
    | Except.ok (r :: _) => (Except.ok ⟨url, r.title, r.content, r.publishedDate⟩, s)

/-- The payload of a latest-news response. -/
structure LatestOutput where
  count : Nat
  results : List DisplayResult
deriving DecidableEq, Repr

/-- index.ts handleGetLatestNews: `args.limit || 10` articles, newest first. -/
def handleGetLatestNews (limitArg : Option Nat) (now : Nat) (s : Store) : LatestOutput :=
  let limit := jsOrNat limitArg 10
  let articles := getNewsArticles limit 0 now s
  ⟨articles.length, articles.map displayCache⟩

/-- A batch ingestion: store each article at its own creation instant, the
code path where `timestamp` is taken at store time. -/
def ingestSeq (ttlDays : Nat) (arts : List NewsArticle) (s : Store) : Store :=
  arts.foldl (fun st a => storeNewsArticle ttlDays a.timestamp a st) s

/-- The `(timestamp, id)` index entries of a batch. -/
def entriesOf (arts : List NewsArticle) : List (Nat × String) :=
  arts.map (fun a => (a.timestamp, a.id))

/-- Store states reachable through the service's write operations. -/
inductive Reachable : Store → Prop
  | empty : Reachable emptyStore
  | put (ttlDays now : Nat) (a : NewsArticle) {s : Store} :
      Reachable s → Reachable (storeNewsArticle ttlDays now a s)
  | mark (ts : Nat) {s : Store} :
      Reachable s → Reachable (storeLastFetchTime ts s)

/-- The spec's reading of the fallback persistence rule (spec section 4.4
step 3): walk the provider results in order and persist exactly those the
dedup gate does not flag against the store as written so far. -/
def specFallbackStep (uuid : Nat → String) (nowIso : String) (now ttlDays : Nat)
    (acc : Store × List NewsArticle × Nat) (r : SearchResult) :
    Store × List NewsArticle × Nat :=
  if articleExists r.title now acc.1 then acc
  else
    let a := buildArticle (uuid acc.2.2) nowIso now r
    (storeNewsArticle ttlDays now a acc.1, acc.2.1 ++ [a], acc.2.2 + 1)

/-- The spec-side fallback persistence pass over a provider result list. -/
def specFallbackPersist (uuid : Nat → String) (nowIso : String) (now ttlDays : Nat)
    (rs : List SearchResult) (ctr : Nat) (s : Store) : Store × List NewsArticle × Nat :=
  rs.foldl (specFallbackStep uuid nowIso now ttlDays) (s, [], ctr)

/-- A concrete article shape used in witnesses and counterexamples. -/
def exArticle (idStr ti : String) (ts : Nat) : NewsArticle :=
  ⟨idStr, ti, "u", "c", "s", "d", "x", 1, ts⟩

/-- A store whose newest index entry is expired while an older one is live:
the second article was stored at time 0 (so it expires after one TTL) and
the first at a much later instant. -/
def cexStoreExpired : Store :=
  storeNewsArticle 7 1000000000 (exArticle "ida" "t1" 50)
    (storeNewsArticle 7 0 (exArticle "idb" "t2" 100) emptyStore)

/-- A store holding two live articles with equal timestamps. -/
def cexStoreTie : Store :=
  storeNewsArticle 7 5 (exArticle "b" "t2" 5)
    (storeNewsArticle 7 5 (exArticle "a" "t1" 5) emptyStore)

/-- The i-th article of the 1001-article capacity witness batch: distinct
ids and titles of strictly growing length, timestamp `i`. -/
def wArt (i : Nat) : NewsArticle :=
  ⟨String.mk (List.replicate (i + 1) 'b'), String.mk (List.replicate (i + 1) 'a'),
   "u", "c", "s", "d", "x", 1, i⟩

/-- 1001 distinct articles with strictly increasing timestamps. -/
def wArts : List NewsArticle := (List.range 1001).map wArt

/-- A three-article batch with strictly increasing timestamps. -/
def wSmallArts : List NewsArticle :=
  [exArticle "a" "t1" 1, exArticle "b" "t2" 2, exArticle "c" "t3" 3]

/-- A provider result carrying an explicit score of 0. -/
def cexScoreResult : SearchResult := ⟨"t", "u", "c", none, none, some 0⟩

/-- A provider result carrying an explicit nonzero score. -/
def wScoreResult : SearchResult := ⟨"t", "u", "c", none, none, some 1⟩

/-- A provider result with a given title and no optional fields. -/
def wSr (ti : String) : SearchResult := ⟨ti, "u", "c", none, none, none⟩

/-- A uuid supply for witnesses. -/
def wUuid (n : Nat) : String := String.mk (List.replicate (n + 1) 'u')

/-- A store holding a single fresh article. -/
def wStoreOne : Store := storeNewsArticle 7 0 (exArticle "a" "t1" 5) emptyStore

end NewsMcp

namespace NewsMcp

theorem listLtb_irrefl : ∀ l : List Char, listLtb l l = false := by
  intro l
  induction l with
  | nil => rfl
  | cons a t ih => simp [listLtb, ih]

theorem listLtb_trans : ∀ {a b c : List Char},
    listLtb a b = true → listLtb b c = true → listLtb a c = true := by
  intro a
  induction a with
  | nil =>
    intro b c hab hbc
    cases b with
    | nil => simp [listLtb] at hab
    | cons y ys =>
      cases c with
      | nil => simp [listLtb] at hbc
      | cons z zs => simp [listLtb]
  | cons x xs ih =>
    intro b c hab hbc
    cases b with
    | nil => simp [listLtb] at hab
    | cons y ys =>
      cases c with
      | nil => simp [listLtb] at hbc
      | cons z zs =>
        simp only [listLtb] at hab hbc ⊢
        by_cases hxy : x < y
        · simp only [hxy, if_true] at hab
          by_cases hyz : y < z
          · simp [lt_trans hxy hyz]
          · by_cases hzy : z < y
            · simp [hyz, hzy] at hbc
            · have hyzeq : y = z := le_antisymm (not_lt.mp hzy) (not_lt.mp hyz)
              simp [hyzeq ▸ hxy]
        · by_cases hyx : y < x
          · simp [hxy, hyx] at hab
          · have hxyeq : x = y := le_antisymm (not_lt.mp hyx) (not_lt.mp hxy)
            simp only [hxy, hyx, if_false] at hab
            by_cases hyz : y < z
            · simp [hxyeq ▸ hyz]
            · by_cases hzy : z < y
              · simp [hyz, hzy] at hbc
              · have hyzeq : y = z := le_antisymm (not_lt.mp hzy) (not_lt.mp hyz)
                simp only [hyz, hzy, if_false] at hbc
                have hxz : ¬ x < z := by rw [hxyeq, hyzeq]; exact lt_irrefl z
                have hzx : ¬ z < x := by rw [hxyeq, hyzeq]; exact lt_irrefl z
                simp [hxz, hzx, ih hab hbc]

theorem listLtb_asymm {a b : List Char} (h : listLtb a b = true) : listLtb b a = false := by
  by_contra hc
  have hba : listLtb b a = true := by
    cases hab : listLtb b a
    · exact absurd hab hc
    · rfl
  have := listLtb_trans h hba
  rw [listLtb_irrefl] at this
  exact Bool.false_ne_true this

theorem listLtb_total_of_ne : ∀ {a b : List Char},
    a ≠ b → listLtb a b = true ∨ listLtb b a = true := by
  intro a
  induction a with
  | nil =>
    intro b hne
    cases b with
    | nil => exact absurd rfl hne
    | cons y ys => left; simp [listLtb]
  | cons x xs ih =>
    intro b hne
    cases b with
    | nil => right; simp [listLtb]
    | cons y ys =>
      by_cases hxy : x < y
      · left; simp [listLtb, hxy]
      · by_cases hyx : y < x
        · right; simp [listLtb, hyx]
        · have hxyeq : x = y := le_antisymm (not_lt.mp hyx) (not_lt.mp hxy)
          subst hxyeq
          have hne' : xs ≠ ys := by
            intro hc
            exact hne (by rw [hc])
          rcases ih hne' with h | h
          · left; simp [listLtb, lt_irrefl, h]
          · right; simp [listLtb, lt_irrefl, h]

theorem strLtb_trans {a b c : String} (h1 : strLtb a b = true) (h2 : strLtb b c = true) :
    strLtb a c = true :=
  listLtb_trans h1 h2

theorem strLtb_total_of_ne {a b : String} (h : a ≠ b) :
    strLtb a b = true ∨ strLtb b a = true :=
  listLtb_total_of_ne (fun hd => h (String.ext hd))

theorem pairLt_trans {a b c : Nat × String} (h1 : pairLtP a b) (h2 : pairLtP b c) :
    pairLtP a c := by
  simp only [pairLtP, pairLtb, Bool.or_eq_true, Bool.and_eq_true, decide_eq_true_eq] at h1 h2 ⊢
  rcases h1 with h1 | ⟨h1e, h1s⟩
  · rcases h2 with h2 | ⟨h2e, h2s⟩
    · exact Or.inl (lt_trans h1 h2)
    · exact Or.inl (h2e ▸ h1)
  · rcases h2 with h2 | ⟨h2e, h2s⟩
    · exact Or.inl (h1e ▸ h2)
    · exact Or.inr ⟨h1e.trans h2e, strLtb_trans h1s h2s⟩

theorem pairLt_irrefl (a : Nat × String) : ¬ pairLtP a a := by
  simp only [pairLtP, pairLtb, Bool.or_eq_true, Bool.and_eq_true, decide_eq_true_eq]
  intro h
  rcases h with h | ⟨_, hs⟩
  · exact lt_irrefl _ h
  · rw [strLtb, listLtb_irrefl] at hs
    exact Bool.false_ne_true hs

theorem pairLt_asymm {a b : Nat × String} (h : pairLtP a b) : ¬ pairLtP b a :=
  fun h2 => pairLt_irrefl a (pairLt_trans h h2)

theorem pairLt_total_of_snd_ne {a b : Nat × String} (h : a.2 ≠ b.2) :
    pairLtP a b ∨ pairLtP b a := by
  rcases lt_trichotomy a.1 b.1 with h1 | h1 | h1
  · left; simp [pairLtP, pairLtb, h1]
  · rcases strLtb_total_of_ne h with hs | hs
    · left; simp [pairLtP, pairLtb, h1, hs]
    · right; simp [pairLtP, pairLtb, h1.symm, hs]
  · right; simp [pairLtP, pairLtb, h1]

theorem mem_zinsert {e x : Nat × String} :
    ∀ {l : List (Nat × String)}, x ∈ zinsert e l → x = e ∨ x ∈ l := by
  intro l
  induction l with
  | nil => intro h; simpa [zinsert] using h
  | cons f t ih =>
    intro h
    simp only [zinsert] at h
    split at h
    · simp only [List.mem_cons] at h
      rcases h with h | h | h
      · exact Or.inl h
      · exact Or.inr (by simp [h])
      · exact Or.inr (by simp [h])
    · simp only [List.mem_cons] at h
      rcases h with h | h
      · exact Or.inr (by simp [h])
      · rcases ih h with h' | h'
        · exact Or.inl h'
        · exact Or.inr (by simp [h'])

theorem zinsert_pairwise {e : Nat × String} :
    ∀ {l : List (Nat × String)}, List.Pairwise pairLtP l → (∀ f ∈ l, f.2 ≠ e.2) →
      List.Pairwise pairLtP (zinsert e l) := by
  intro l
  induction l with
  | nil => intro _ _; simp [zinsert]
  | cons f t ih =>
    intro hp hm
    have hpf : ∀ b ∈ t, pairLtP f b := (List.pairwise_cons.mp hp).1
    have hpt : List.Pairwise pairLtP t := (List.pairwise_cons.mp hp).2
    simp only [zinsert]
    split
    · rename_i hef
      refine List.Pairwise.cons ?_ hp
      intro y hy
      simp only [List.mem_cons] at hy
      rcases hy with hy | hy
      · subst hy; exact hef
      · exact pairLt_trans hef (hpf y hy)
    · rename_i hef
      have hfe : pairLtP f e := by
        rcases pairLt_total_of_snd_ne (show f.2 ≠ e.2 from hm f (by simp)) with h | h
        · exact h
        · exact absurd h hef
      refine List.Pairwise.cons ?_ (ih hpt (fun g hg => hm g (by simp [hg])))
      intro y hy
      rcases mem_zinsert hy with hy | hy
      · subst hy; exact hfe
      · exact hpf y hy

end NewsMcp

namespace NewsMcp

theorem zadd_pairwise {idx : List (Nat × String)} (h : List.Pairwise pairLtP idx)
    (sc : Nat) (m : String) : List.Pairwise pairLtP (zadd idx sc m) := by
  refine zinsert_pairwise (List.Pairwise.filter _ h) ?_
  intro f hf
  have := (List.mem_filter.mp hf).2
  simpa using this

theorem zinsert_append_of_all_lt {e : Nat × String} :
    ∀ {l : List (Nat × String)}, (∀ f ∈ l, pairLtP f e) → zinsert e l = l ++ [e] := by
  intro l
  induction l with
  | nil => intro _; rfl
  | cons f t ih =>
    intro h
    have hfe : pairLtP f e := h f (by simp)
    have hef : pairLtb e f = false := by
      cases hc : pairLtb e f
      · rfl
      · exact absurd hc (pairLt_asymm hfe)
    simp only [zinsert, hef]
    simp [ih (fun g hg => h g (by simp [hg]))]

theorem zadd_of_fresh {idx : List (Nat × String)} {sc : Nat} {m : String}
    (hm : ∀ f ∈ idx, f.2 ≠ m) (hlt : ∀ f ∈ idx, f.1 < sc) :
    zadd idx sc m = idx ++ [(sc, m)] := by
  have hfilter : idx.filter (fun e => e.2 != m) = idx := by
    rw [List.filter_eq_self]
    intro a ha
    simpa using hm a ha
  rw [zadd, hfilter]
  refine zinsert_append_of_all_lt ?_
  intro f hf
  simp [pairLtP, pairLtb, hlt f hf]

theorem lastK_length_le {α : Type _} (n : Nat) (l : List α) : (lastK n l).length ≤ n := by
  simp only [lastK, List.length_drop]
  omega

theorem lastK_of_le {α : Type _} {n : Nat} {l : List α} (h : l.length ≤ n) : lastK n l = l := by
  simp only [lastK]
  rw [Nat.sub_eq_zero_of_le h, List.drop_zero]

theorem lastK_sublist {α : Type _} (n : Nat) (l : List α) : List.Sublist (lastK n l) l :=
  List.drop_sublist _ _

theorem lastK_append_lastK {α : Type _} (n : Nat) (xs ys : List α) :
    lastK n (lastK n xs ++ ys) = lastK n (xs ++ ys) := by
  by_cases h : xs.length ≤ n
  · rw [lastK_of_le h]
  · push_neg at h
    have hu : (lastK n xs).length = n := by
      simp only [lastK, List.length_drop]
      omega
    have h1 : (lastK n xs ++ ys).length - n = ys.length := by
      simp only [List.length_append, hu]
      omega
    have h2 : (xs ++ ys).length - n = (xs.take (xs.length - n)).length + ys.length := by
      simp only [List.length_append, List.length_take]
      omega
    have hsplit : xs.take (xs.length - n) ++ lastK n xs = xs := List.take_append_drop _ _
    show (lastK n xs ++ ys).drop ((lastK n xs ++ ys).length - n)
        = (xs ++ ys).drop ((xs ++ ys).length - n)
    conv_rhs => rw [← hsplit]
    rw [List.append_assoc]
    have hlen : (xs.take (xs.length - n) ++ (lastK n xs ++ ys)).length - n
        = (xs.take (xs.length - n)).length + ys.length := by
      simp only [List.length_append, List.length_take, hu]
      omega
    rw [hlen, List.drop_append, h1]

theorem trimIndex_eq_lastK (idx : List (Nat × String)) : trimIndex idx = lastK 1000 idx := rfl

theorem zrevrangeEntries_all (idx : List (Nat × String)) :
    zrevrangeEntries idx 0 (-1) = idx.reverse := by
  simp only [zrevrangeEntries]
  generalize idx.reverse = rev
  rw [if_neg (by omega : ¬ ((0 : Int) < 0)), if_pos (by omega : ((-1 : Int) < 0))]
  by_cases hn0 : rev.length = 0
  · rw [List.length_eq_zero.mp hn0]
    rfl
  · rw [if_neg (by omega)]
    have h1 : (max (0 : Int) 0).toNat = 0 := by omega
    have h2 : (min ((rev.length : Int) + -1) ((rev.length : Int) - 1)
        - max (0 : Int) 0 + 1).toNat = rev.length := by omega
    rw [h1, h2, List.drop_zero, List.take_length]

theorem zrevrangeEntries_window (idx : List (Nat × String)) (limit : Nat) (h : 1 ≤ limit) :
    zrevrangeEntries idx ((0 : Nat) : Int) (((0 : Nat) : Int) + (limit : Int) - 1)
      = idx.reverse.take limit := by
  simp only [zrevrangeEntries]
  generalize idx.reverse = rev
  rw [if_neg (by omega : ¬ (((0 : Nat) : Int) < 0)),
    if_neg (by omega : ¬ (((0 : Nat) : Int) + (limit : Int) - 1 < 0))]
  by_cases hn0 : rev.length = 0
  · rw [if_pos (by omega), List.length_eq_zero.mp hn0, List.take_nil]
  · rw [if_neg (by omega)]
    have h1 : (max ((0 : Nat) : Int) 0).toNat = 0 := by omega
    by_cases hcap : rev.length ≤ limit
    · have h2 : (min (((0 : Nat) : Int) + (limit : Int) - 1) ((rev.length : Int) - 1)
          - max ((0 : Nat) : Int) 0 + 1).toNat = rev.length := by omega
      rw [h1, h2, List.drop_zero, List.take_length, List.take_of_length_le hcap]
    · have h2 : (min (((0 : Nat) : Int) + (limit : Int) - 1) ((rev.length : Int) - 1)
          - max ((0 : Nat) : Int) 0 + 1).toNat = limit := by omega
      rw [h1, h2, List.drop_zero]

theorem zrevrangeEntries_sublist (idx : List (Nat × String)) (a b : Int) :
    List.Sublist (zrevrangeEntries idx a b) idx.reverse := by
  simp only [zrevrangeEntries]
  split_ifs with h1 h2 h3
  · exact List.nil_sublist _
  · exact List.Sublist.trans (List.take_sublist _ _) (List.drop_sublist _ _)
  · exact List.nil_sublist _
  · exact List.Sublist.trans (List.take_sublist _ _) (List.drop_sublist _ _)
  · exact List.nil_sublist _
  · exact List.Sublist.trans (List.take_sublist _ _) (List.drop_sublist _ _)
  · exact List.nil_sublist _
  · exact List.Sublist.trans (List.take_sublist _ _) (List.drop_sublist _ _)

theorem length_filterMap_eq {α β : Type _} (f : α → Option β) :
    ∀ l : List α, (l.filterMap f).length = (l.filter (fun x => (f x).isSome)).length := by
  intro l
  induction l with
  | nil => rfl
  | cons a t ih =>
    cases hfa : f a with
    | none => simp [List.filterMap_cons, List.filter_cons, hfa, ih]
    | some b => simp [List.filterMap_cons, List.filter_cons, hfa, ih]

theorem pairwise_filterMap_of {α β : Type _} (f : α → Option β) {R : α → α → Prop}
    {S : β → β → Prop} (H : ∀ a b x y, R a b → f a = some x → f b = some y → S x y) :
    ∀ {l : List α}, List.Pairwise R l → List.Pairwise S (l.filterMap f) := by
  intro l
  induction l with
  | nil => intro _; simp
  | cons a t ih =>
    intro hp
    have hfa : ∀ b ∈ t, R a b := (List.pairwise_cons.mp hp).1
    have hpt : List.Pairwise R t := (List.pairwise_cons.mp hp).2
    cases hf : f a with
    | none => simpa [List.filterMap_cons, hf] using ih hpt
    | some x =>
      simp only [List.filterMap_cons, hf]
      refine List.Pairwise.cons ?_ (ih hpt)
      intro y hy
      rcases List.mem_filterMap.mp hy with ⟨b, hb, hfb⟩
      exact H a b x y (hfa b hb) hf hfb

theorem filterMap_map_full {α β : Type _} (g : β → Option α) (f : α → β) :
    ∀ {l : List α}, (∀ a ∈ l, g (f a) = some a) → (l.map f).filterMap g = l := by
  intro l
  induction l with
  | nil => intro _; rfl
  | cons a t ih =>
    intro h
    simp only [List.map_cons, List.filterMap_cons, h a (by simp)]
    rw [ih (fun b hb => h b (by simp [hb]))]

end NewsMcp

namespace NewsMcp

theorem find?_filter_ne {k k' : String} (hk : k ≠ k') :
    ∀ l : List (String × Stored),
      (l.filter (fun e => e.1 != k')).find? (fun e => e.1 == k)
        = l.find? (fun e => e.1 == k) := by
  intro l
  induction l with
  | nil => rfl
  | cons e t ih =>
    by_cases he : e.1 = k
    · have hne : (e.1 != k') = true := by
        simp [he, hk]
      simp [List.filter_cons, hne, List.find?_cons, he, hk]
    · have hpeF : (e.1 == k) = false := by simp [he]
      by_cases hf : (e.1 != k') = true
      · simp [List.filter_cons, hf, List.find?_cons, hpeF, ih]
      · rw [Bool.not_eq_true] at hf
        simp [List.filter_cons, hf, List.find?_cons, hpeF, ih]

theorem lookupArticle_set_self (k : String) (v : Stored) (l : List (String × Stored)) :
    lookupArticle k (setArticle k v l) = some v := by
  simp [lookupArticle, setArticle, List.find?_cons]

theorem lookupArticle_set_other {k k' : String} (h : k ≠ k') (v : Stored)
    (l : List (String × Stored)) :
    lookupArticle k (setArticle k' v l) = lookupArticle k l := by
  unfold lookupArticle setArticle
  have hpeF : ((k' : String) == k) = false := by
    rw [beq_eq_false_iff_ne]
    exact fun hc => h hc.symm
  simp [List.find?_cons, hpeF, find?_filter_ne h]

theorem reachable_inv {s : Store} (h : Reachable s) :
    List.Pairwise pairLtP s.index ∧
    (∀ e ∈ s.index, ∀ st, lookupArticle e.2 s.articles = some st →
      st.article.timestamp = e.1) ∧
    (∀ kv ∈ s.articles, (kv.2).article.id = kv.1) := by
  induction h with
  | empty =>
    refine ⟨?_, ?_, ?_⟩ <;> simp [emptyStore]
  | mark ts _ ih => exact ih
  | put ttlDays now a _ ih =>
    obtain ⟨hp, hts, hid⟩ := ih
    refine ⟨?_, ?_, ?_⟩
    · simp only [storeNewsArticle, trimIndex]
      exact List.Pairwise.sublist (List.drop_sublist _ _) (zadd_pairwise hp _ _)
    · intro e he st hlk
      simp only [storeNewsArticle, trimIndex] at he
      simp only [storeNewsArticle] at hlk
      have he1 : e ∈ zadd _ a.timestamp a.id := List.drop_subset _ _ he
      rcases mem_zinsert he1 with heq | hein
      · subst heq
        rw [lookupArticle_set_self] at hlk
        cases hlk
        rfl
      · have hne : e.2 ≠ a.id := by
          have := (List.mem_filter.mp hein).2
          simpa using this
        rw [lookupArticle_set_other hne] at hlk
        exact hts e ((List.filter_sublist _).subset hein) st hlk
    · intro kv hkv
      simp only [storeNewsArticle, setArticle, List.mem_cons] at hkv
      rcases hkv with hkv | hkv
      · subst hkv; rfl
      · exact hid kv ((List.filter_sublist _).subset hkv)

theorem liveArticles_eq (now : Nat) (s : Store) :
    liveArticles now s
      = s.index.reverse.filterMap (fun e => getNewsArticle e.2 now s) := by
  unfold liveArticles zrevrange
  rw [zrevrangeEntries_all, List.filterMap_map]
  rfl

theorem getNewsArticle_eq_some_iff {id : String} {now : Nat} {s : Store} {a : NewsArticle} :
    getNewsArticle id now s = some a
      ↔ ∃ st, lookupArticle id s.articles = some st ∧ now < st.expireAt ∧ st.article = a := by
  unfold getNewsArticle
  cases h : lookupArticle id s.articles with
  | none => simp
  | some st =>
    show (if now < st.expireAt then some st.article else none) = some a ↔ _
    split_ifs with he
    · simp [he, eq_comm]
    · simp [he]

theorem getNewsArticles_zero_offset (limit now : Nat) (s : Store) (h : 1 ≤ limit) :
    getNewsArticles limit 0 now s
      = (s.index.reverse.take limit).filterMap (fun e => getNewsArticle e.2 now s) := by
  unfold getNewsArticles zrevrange
  rw [zrevrangeEntries_window s.index limit h, List.filterMap_map]
  rfl

theorem getNewsArticles_length_le (limit now : Nat) (s : Store) (h : 1 ≤ limit) :
    (getNewsArticles limit 0 now s).length ≤ limit := by
  rw [getNewsArticles_zero_offset limit now s h]
  refine le_trans (List.length_filterMap_le _ _) ?_
  rw [List.length_take]
  exact min_le_left _ _

theorem getNewsArticles_length_le_index (limit offset now : Nat) (s : Store) :
    (getNewsArticles limit offset now s).length ≤ s.index.length := by
  unfold getNewsArticles zrevrange
  refine le_trans (List.length_filterMap_le _ _) ?_
  rw [List.length_map]
  have := (zrevrangeEntries_sublist s.index (offset : Int)
    ((offset : Int) + (limit : Int) - 1)).length_le
  simpa using this

end NewsMcp

namespace NewsMcp

theorem ingestSeq_nil (ttlDays : Nat) (s : Store) : ingestSeq ttlDays [] s = s := rfl

theorem ingestSeq_cons (ttlDays : Nat) (a : NewsArticle) (rest : List NewsArticle) (s : Store) :
    ingestSeq ttlDays (a :: rest) s
      = ingestSeq ttlDays rest (storeNewsArticle ttlDays a.timestamp a s) := rfl

theorem reachable_ingestSeq (ttlDays : Nat) :
    ∀ {arts : List NewsArticle} {s : Store}, Reachable s → Reachable (ingestSeq ttlDays arts s) := by
  intro arts
  induction arts with
  | nil => intro s h; exact h
  | cons a rest ih =>
    intro s h
    rw [ingestSeq_cons]
    exact ih (Reachable.put ttlDays a.timestamp a h)

theorem ingestSeq_lookup_preserve (ttlDays : Nat) {k : String} :
    ∀ {arts : List NewsArticle} {s : Store}, (∀ c ∈ arts, c.id ≠ k) →
      lookupArticle k (ingestSeq ttlDays arts s).articles = lookupArticle k s.articles := by
  intro arts
  induction arts with
  | nil => intro s _; rfl
  | cons a rest ih =>
    intro s hk
    rw [ingestSeq_cons, ih (fun c hc => hk c (by simp [hc]))]
    simp only [storeNewsArticle]
    exact lookupArticle_set_other (fun hc => hk a (by simp) hc.symm) _ _

theorem ingestSeq_lookup (ttlDays : Nat) :
    ∀ {arts : List NewsArticle} {s : Store} {a : NewsArticle},
      a ∈ arts → List.Pairwise (fun x y : NewsArticle => x.id ≠ y.id) arts →
      lookupArticle a.id (ingestSeq ttlDays arts s).articles
        = some ⟨a, a.timestamp + ttlSecs ttlDays⟩ := by
  intro arts
  induction arts with
  | nil => intro s a ha _; cases ha
  | cons b rest ih =>
    intro s a ha hpw
    rcases List.mem_cons.mp ha with rfl | ha'
    · rw [ingestSeq_cons,
        ingestSeq_lookup_preserve ttlDays
          (fun c hc => ((List.pairwise_cons.mp hpw).1 c hc).symm)]
      simp only [storeNewsArticle]
      exact lookupArticle_set_self _ _ _
    · rw [ingestSeq_cons]
      exact ih ha' (List.pairwise_cons.mp hpw).2

theorem ingestSeq_index (ttlDays : Nat) :
    ∀ {arts : List NewsArticle} (s : Store),
      List.Pairwise pairLtP s.index →
      (∀ e ∈ s.index, ∀ a ∈ arts, e.1 < a.timestamp) →
      (∀ e ∈ s.index, ∀ a ∈ arts, e.2 ≠ a.id) →
      s.index.length ≤ 1000 →
      List.Pairwise (fun x y : NewsArticle => x.timestamp < y.timestamp) arts →
      List.Pairwise (fun x y : NewsArticle => x.id ≠ y.id) arts →
      (ingestSeq ttlDays arts s).index = lastK 1000 (s.index ++ entriesOf arts) := by
  intro arts
  induction arts with
  | nil =>
    intro s hp _ _ hlen _ _
    rw [ingestSeq_nil]
    simp only [entriesOf, List.map_nil, List.append_nil]
    rw [lastK_of_le hlen]
  | cons a rest ih =>
    intro s hp hts hm hlen hats haid
    rw [ingestSeq_cons]
    have hz : zadd s.index a.timestamp a.id = s.index ++ [(a.timestamp, a.id)] :=
      zadd_of_fresh (fun f hf => hm f hf a (by simp)) (fun f hf => hts f hf a (by simp))
    have hidx1 : (storeNewsArticle ttlDays a.timestamp a s).index
        = lastK 1000 (s.index ++ [(a.timestamp, a.id)]) := by
      simp only [storeNewsArticle, trimIndex_eq_lastK, hz]
    have h1 : List.Pairwise pairLtP (storeNewsArticle ttlDays a.timestamp a s).index := by
      rw [hidx1]
      refine List.Pairwise.sublist (lastK_sublist _ _) ?_
      rw [← hz]
      exact zadd_pairwise hp _ _
    have hsubset : ∀ e ∈ (storeNewsArticle ttlDays a.timestamp a s).index,
        e ∈ s.index ++ [(a.timestamp, a.id)] := by
      intro e he
      rw [hidx1] at he
      exact (lastK_sublist _ _).subset he
    have h2 : ∀ e ∈ (storeNewsArticle ttlDays a.timestamp a s).index,
        ∀ b ∈ rest, e.1 < b.timestamp := by
      intro e he b hb
      rcases List.mem_append.mp (hsubset e he) with he' | he'
      · exact hts e he' b (by simp [hb])
      · have he2 : e = (a.timestamp, a.id) := by simpa using he'
        rw [he2]
        exact (List.pairwise_cons.mp hats).1 b hb
    have h3 : ∀ e ∈ (storeNewsArticle ttlDays a.timestamp a s).index,
        ∀ b ∈ rest, e.2 ≠ b.id := by
      intro e he b hb
      rcases List.mem_append.mp (hsubset e he) with he' | he'
      · exact hm e he' b (by simp [hb])
      · have he2 : e = (a.timestamp, a.id) := by simpa using he'
        rw [he2]
        exact (List.pairwise_cons.mp haid).1 b hb
    have h4 : (storeNewsArticle ttlDays a.timestamp a s).index.length ≤ 1000 := by
      rw [hidx1]
      exact lastK_length_le _ _
    rw [ih (storeNewsArticle ttlDays a.timestamp a s) h1 h2 h3 h4
      (List.pairwise_cons.mp hats).2 (List.pairwise_cons.mp haid).2, hidx1, lastK_append_lastK]
    simp only [entriesOf, List.map_cons, List.append_assoc, List.singleton_append]

theorem ingestSeq_index_from_empty (ttlDays : Nat) (arts : List NewsArticle)
    (hats : List.Pairwise (fun x y : NewsArticle => x.timestamp < y.timestamp) arts)
    (haid : List.Pairwise (fun x y : NewsArticle => x.id ≠ y.id) arts) :
    (ingestSeq ttlDays arts emptyStore).index = lastK 1000 (entriesOf arts) := by
  have h := ingestSeq_index ttlDays emptyStore (by simp [emptyStore]) (by simp [emptyStore])
    (by simp [emptyStore]) (by simp [emptyStore]) hats haid
  simpa [emptyStore] using h

theorem mem_getNewsArticles_id (limit offset now : Nat) (s : Store)
    (hkey : ∀ kv ∈ s.articles, (kv.2).article.id = kv.1) :
    ∀ b ∈ getNewsArticles limit offset now s, ∃ e ∈ s.index, b.id = e.2 := by
  intro b hb
  unfold getNewsArticles zrevrange at hb
  rcases List.mem_filterMap.mp hb with ⟨id, hid, hget⟩
  rcases List.mem_map.mp hid with ⟨e, he, rfl⟩
  have he' : e ∈ s.index :=
    List.mem_reverse.mp ((zrevrangeEntries_sublist s.index _ _).subset he)
  rcases getNewsArticle_eq_some_iff.mp hget with ⟨st, hlk, _, hart⟩
  unfold lookupArticle at hlk
  cases hfind : List.find? (fun x => x.1 == e.2) s.articles with
  | none => rw [hfind] at hlk; simp at hlk
  | some kv =>
    rw [hfind] at hlk
    simp only [Option.map] at hlk
    have h1 : (kv.1 == e.2) = true := by
      have := List.find?_some hfind
      simpa using this
    have h2 : kv ∈ s.articles := List.mem_of_find?_eq_some hfind
    have hlk2 : kv.2 = st := Option.some.inj hlk
    refine ⟨e, he', ?_⟩
    rw [← hart, ← hlk2, hkey kv h2]
    simpa using h1

end NewsMcp

namespace NewsMcp

theorem pairLt_fst_le {a b : Nat × String} (h : pairLtP a b) : a.1 ≤ b.1 := by
  simp only [pairLtP, pairLtb, Bool.or_eq_true, Bool.and_eq_true, decide_eq_true_eq] at h
  rcases h with h | ⟨h, _⟩
  · omega
  · omega

theorem getNewsArticles_pairwise_desc {s : Store} (h : Reachable s) (limit offset now : Nat) :
    List.Pairwise (fun x y : NewsArticle => y.timestamp ≤ x.timestamp)
      (getNewsArticles limit offset now s) := by
  obtain ⟨hp, hts, _⟩ := reachable_inv h
  unfold getNewsArticles zrevrange
  rw [List.filterMap_map]
  have hrev : List.Pairwise (fun e f : Nat × String => pairLtP f e) s.index.reverse :=
    List.pairwise_reverse.mpr hp
  have hseg : List.Pairwise (fun e f : Nat × String => pairLtP f e)
      (zrevrangeEntries s.index ((offset : Int)) ((offset : Int) + (limit : Int) - 1)) :=
    List.Pairwise.sublist (zrevrangeEntries_sublist _ _ _) hrev
  have hseg' : List.Pairwise
      (fun e f : Nat × String => e ∈ s.index ∧ f ∈ s.index ∧ pairLtP f e)
      (zrevrangeEntries s.index ((offset : Int)) ((offset : Int) + (limit : Int) - 1)) := by
    have hmem := List.Pairwise.and_mem.mp hseg
    refine hmem.imp ?_
    intro e f hef
    obtain ⟨he, hf, hr⟩ := hef
    have hsub := (zrevrangeEntries_sublist s.index ((offset : Int))
      ((offset : Int) + (limit : Int) - 1)).subset
    exact ⟨List.mem_reverse.mp (hsub he), List.mem_reverse.mp (hsub hf), hr⟩
  refine pairwise_filterMap_of _ ?_ hseg'
  intro a b x y hr hfa hfb
  obtain ⟨hma, hmb, hlt⟩ := hr
  rcases getNewsArticle_eq_some_iff.mp hfa with ⟨st1, hl1, _, ha1⟩
  rcases getNewsArticle_eq_some_iff.mp hfb with ⟨st2, hl2, _, ha2⟩
  have hx : x.timestamp = a.1 := by rw [← ha1]; exact hts a hma st1 hl1
  have hy : y.timestamp = b.1 := by rw [← ha2]; exact hts b hmb st2 hl2
  rw [hx, hy]
  exact pairLt_fst_le hlt

theorem lastK_eq_rtake {α : Type _} (n : Nat) (l : List α) : lastK n l = l.rtake n := rfl

theorem lastK_reverse_take {α : Type _} {n N : Nat} (l : List α) (h : N ≤ n) :
    (lastK n l).reverse.take N = (lastK N l).reverse := by
  rw [lastK_eq_rtake, lastK_eq_rtake, List.rtake_eq_reverse_take_reverse,
    List.rtake_eq_reverse_take_reverse, List.reverse_reverse, List.reverse_reverse,
    List.take_take, min_eq_left h]

theorem getNewsArticles_ingestSeq (ttlDays : Nat) (arts : List NewsArticle) (N now : Nat)
    (hN1 : 1 ≤ N) (hN3 : N ≤ 1000)
    (hats : List.Pairwise (fun x y : NewsArticle => x.timestamp < y.timestamp) arts)
    (haid : List.Pairwise (fun x y : NewsArticle => x.id ≠ y.id) arts)
    (hlive : ∀ a ∈ arts, now < a.timestamp + ttlSecs ttlDays) :
    getNewsArticles N 0 now (ingestSeq ttlDays arts emptyStore)
      = (arts.drop (arts.length - N)).reverse := by
  rw [getNewsArticles_zero_offset N now _ hN1]
  have hidx := ingestSeq_index_from_empty ttlDays arts hats haid
  have hstep1 : (ingestSeq ttlDays arts emptyStore).index.reverse.take N
      = ((arts.drop (arts.length - N)).map (fun a => (a.timestamp, a.id))).reverse := by
    rw [hidx, lastK_reverse_take _ hN3]
    simp only [lastK, entriesOf, List.map_drop, List.length_map]
  rw [hstep1, ← List.map_reverse]
  refine filterMap_map_full _ _ ?_
  intro a ha
  have ha' : a ∈ arts := by
    have h1 := List.mem_reverse.mp ha
    exact List.drop_subset _ _ h1
  unfold getNewsArticle
  rw [ingestSeq_lookup ttlDays ha' haid]
  simp [hlive a ha']

theorem searchNewsArticles_length_cond (q : String) (M now : Nat) (s : Store) :
    (M ≤ (searchNewsArticles q M now s).length) ↔ M ≤ (cacheMatches q now s).length := by
  unfold searchNewsArticles
  rw [List.length_take]
  omega

theorem ingestResults_eq_fold (uuid : Nat → String) (nowIso : String) (now ttlDays : Nat) :
    ∀ (rs : List SearchResult) (ctr : Nat) (s : Store) (acc : List NewsArticle),
      rs.foldl (specFallbackStep uuid nowIso now ttlDays) (s, acc, ctr)
        = ((ingestResults uuid nowIso now ttlDays rs ctr s).1,
           acc ++ (ingestResults uuid nowIso now ttlDays rs ctr s).2,
           ctr + (ingestResults uuid nowIso now ttlDays rs ctr s).2.length) := by
  intro rs
  induction rs with
  | nil => intro ctr s acc; simp [ingestResults]
  | cons r rest ih =>
    intro ctr s acc
    by_cases hd : articleExists r.title now s
    · rw [List.foldl_cons]
      have hstep : specFallbackStep uuid nowIso now ttlDays (s, acc, ctr) r = (s, acc, ctr) := by
        simp [specFallbackStep, hd]
      rw [hstep, ih]
      simp [ingestResults, hd]
    · rw [List.foldl_cons]
      have hstep : specFallbackStep uuid nowIso now ttlDays (s, acc, ctr) r
          = (storeNewsArticle ttlDays now (buildArticle (uuid ctr) nowIso now r) s,
             acc ++ [buildArticle (uuid ctr) nowIso now r], ctr + 1) := by
        simp [specFallbackStep, hd]
      rw [hstep, ih]
      simp only [ingestResults, hd, if_false, Bool.false_eq_true]
      simp [List.append_assoc]
      omega

theorem specFallbackPersist_eq (uuid : Nat → String) (nowIso : String) (now ttlDays : Nat)
    (rs : List SearchResult) (ctr : Nat) (s : Store) :
    specFallbackPersist uuid nowIso now ttlDays rs ctr s
      = ((ingestResults uuid nowIso now ttlDays rs ctr s).1,
         (ingestResults uuid nowIso now ttlDays rs ctr s).2,
         ctr + (ingestResults uuid nowIso now ttlDays rs ctr s).2.length) := by
  unfold specFallbackPersist
  rw [ingestResults_eq_fold]
  simp

end NewsMcp

namespace NewsMcp

/-- C1: for every nonempty query, the resolver first computes the live cached
matches (live indexed articles containing the query as a case-insensitive
substring of title, content or summary); when at least `maxResults || 5` such
matches exist it returns exactly the first that many, tagged as cache, with
the store untouched and the live provider never invoked; when fewer exist it
invokes the live provider and, on success, tags the response as live. -/
theorem claim1_resolve_threshold (uuid : Nat → String) (ctr : Nat) (nowIso : String)
    (ttlDays now : Nat) (provider : String → Except String (List SearchResult))
    (args : TargetedSearchArgs) (s : Store) (hq : args.query ≠ "") :
    (jsOrNat args.maxResults 5 ≤ (cacheMatches args.query now s).length →
      handleTargetedSearch uuid ctr nowIso ttlDays now provider args s
        = ⟨Except.ok ⟨"cache", args.query,
            ((cacheMatches args.query now s).take (jsOrNat args.maxResults 5)).map
              displayCache⟩, s, false⟩) ∧
    ((cacheMatches args.query now s).length < jsOrNat args.maxResults 5 →
      (handleTargetedSearch uuid ctr nowIso ttlDays now provider args s).providerInvoked
          = true ∧
      ∀ rs, provider args.query = Except.ok rs →
        (handleTargetedSearch uuid ctr nowIso ttlDays now provider args s).output
          = Except.ok ⟨"tavily", args.query, rs.map (displayLive nowIso)⟩) := by
  constructor
  · intro hge
    simp only [handleTargetedSearch]
    rw [if_neg hq]
    have hcond : jsOrNat args.maxResults 5
        ≤ (searchNewsArticles args.query (jsOrNat args.maxResults 5) now s).length :=
      (searchNewsArticles_length_cond _ _ _ _).mpr hge
    rw [if_pos hcond]
    rfl
  · intro hlt
    simp only [handleTargetedSearch]
    rw [if_neg hq]
    have hcond : ¬ (jsOrNat args.maxResults 5
        ≤ (searchNewsArticles args.query (jsOrNat args.maxResults 5) now s).length) := by
      rw [searchNewsArticles_length_cond]
      omega
    rw [if_neg hcond]
    cases hp : provider args.query with
    | error e =>
      refine ⟨rfl, ?_⟩
      intro rs hrs
      cases hrs
    | ok rs =>
      refine ⟨rfl, ?_⟩
      intro rs' hrs
      cases hrs
      rfl

/-- C1 witness: with an empty store and the query "bitcoin", fewer than five
cache matches exist, so the resolver invokes the provider and answers with
the provider's list tagged live. -/
theorem claim1_resolve_threshold_witness :
    ("bitcoin" : String) ≠ "" ∧
    (cacheMatches "bitcoin" 0 emptyStore).length < jsOrNat none 5 ∧
    (handleTargetedSearch wUuid 0 "iso" 7 0 (fun _ => Except.ok [wSr "t1"])
        ⟨"bitcoin", none⟩ emptyStore).providerInvoked = true ∧
    (handleTargetedSearch wUuid 0 "iso" 7 0 (fun _ => Except.ok [wSr "t1"])
        ⟨"bitcoin", none⟩ emptyStore).output
      = Except.ok ⟨"tavily", "bitcoin", [wSr "t1"].map (displayLive "iso")⟩ := by
  have hq : (("bitcoin" : String)) ≠ "" := by decide
  have hlt : (cacheMatches "bitcoin" 0 emptyStore).length < jsOrNat none 5 := by decide
  have h := (claim1_resolve_threshold wUuid 0 "iso" 7 0 (fun _ => Except.ok [wSr "t1"])
    ⟨"bitcoin", none⟩ emptyStore hq).2 hlt
  exact ⟨hq, hlt, h.1, h.2 [wSr "t1"] rfl⟩

/-- C2: the deduplication gate reports a duplicate exactly when some index
entry resolves to a live stored article whose title equals the candidate
under exact case-insensitive (toLower) comparison; no whitespace or
punctuation normalization takes place. -/
theorem claim2_dedup_iff (t : String) (now : Nat) (s : Store) :
    articleExists t now s = true
      ↔ ∃ e ∈ s.index, ∃ st, lookupArticle e.2 s.articles = some st ∧
          now < st.expireAt ∧ st.article.title.toLower = t.toLower := by
  unfold articleExists
  rw [List.any_eq_true]
  constructor
  · rintro ⟨a, ha, hbeq⟩
    rw [liveArticles_eq] at ha
    rcases List.mem_filterMap.mp ha with ⟨e, he, hget⟩
    rcases getNewsArticle_eq_some_iff.mp hget with ⟨st, hlk, hexp, hart⟩
    refine ⟨e, List.mem_reverse.mp he, st, hlk, hexp, ?_⟩
    rw [hart]
    simpa using hbeq
  · rintro ⟨e, he, st, hlk, hexp, htitle⟩
    refine ⟨st.article, ?_, by simpa using htitle⟩
    rw [liveArticles_eq]
    exact List.mem_filterMap.mpr
      ⟨e, List.mem_reverse.mpr he, getNewsArticle_eq_some_iff.mpr ⟨st, hlk, hexp, rfl⟩⟩

/-- C4: a sweep triggered while the scheduler is RUNNING returns immediately
with the store untouched and no provider call issued; a sweep started from
IDLE always ends with the flag back at IDLE, for every provider, including
one that fails on every query; a started sweep hands every configured query
to the provider. -/
theorem claim4_sweep_mutex (uuid : Nat → String) (nowIso : String) (now ttlDays : Nat)
    (provider : String → Except String (List SearchResult)) (queries : List String)
    (s : Store) :
    fetchLatestNews true uuid nowIso now ttlDays provider queries s = (true, s, []) ∧
    (fetchLatestNews false uuid nowIso now ttlDays provider queries s).1 = false ∧
    (fetchLatestNews false uuid nowIso now ttlDays provider queries s).2.2 = queries := by
  refine ⟨rfl, ?_, ?_⟩ <;> simp [fetchLatestNews]

/-- C9: the full-content extraction handler returns the store unchanged on
every input, and produces an error whenever the live provider returns zero
results for the url. -/
theorem claim9_extract_frame (url : String)
    (provider : String → Except String (List ExtractResult)) (s : Store) :
    (handleGetFullContent url provider s).2 = s ∧
    (provider url = Except.ok [] →
      ∃ e, (handleGetFullContent url provider s).1 = Except.error e) := by
  constructor
  · unfold handleGetFullContent
    split_ifs with h
    · rfl
    · cases hp : provider url with
      | error e => rfl
      | ok rs =>
        cases rs with
        | nil => rfl
        | cons r t => rfl
  · intro hp
    unfold handleGetFullContent
    split_ifs with h
    · exact ⟨"URL is required", rfl⟩
    · rw [hp]
      exact ⟨"Content extraction failed: No content found for the provided URL", rfl⟩

/-- C9 witness: a provider returning zero results for "u" leaves the empty
store unchanged and produces an error. -/
theorem claim9_extract_frame_witness :
    ((fun _ : String => (Except.ok [] : Except String (List ExtractResult))) "u"
        = Except.ok []) ∧
    (handleGetFullContent "u" (fun _ => Except.ok []) emptyStore).2 = emptyStore ∧
    ∃ e, (handleGetFullContent "u" (fun _ => Except.ok []) emptyStore).1
        = Except.error e := by
  have h := claim9_extract_frame "u" (fun _ => Except.ok []) emptyStore
  exact ⟨rfl, h.1, h.2 rfl⟩

/-- C10: a latest-news request with an absent or zero limit behaves exactly
as limit 10: the response coincides with the limit-10 response and never
holds more than 10 articles. -/
theorem claim10_latest_default (now : Nat) (s : Store) :
    handleGetLatestNews none now s = handleGetLatestNews (some 10) now s ∧
    handleGetLatestNews (some 0) now s = handleGetLatestNews (some 10) now s ∧
    (handleGetLatestNews none now s).results.length ≤ 10 ∧
    (handleGetLatestNews (some 0) now s).results.length ≤ 10 := by
  refine ⟨rfl, rfl, ?_, ?_⟩ <;>
  · simp only [handleGetLatestNews, jsOrNat, List.length_map]
    exact getNewsArticles_length_le 10 now s (by omega)

end NewsMcp

namespace NewsMcp

/-- C3: after every put the index holds at most 1000 entries; on a put over a
rank-sorted index the evicted entries are exactly a lowest-rank prefix (every
evicted entry ranks strictly below every kept one); and after ingesting more
than 1000 distinct articles with strictly increasing timestamps, list never
returns more than 1000 articles and no article among the oldest-inserted
(those beyond the 1000 newest) ever appears in a list result. -/
theorem claim3_capacity (ttlDays : Nat) (arts : List NewsArticle)
    (hlen : 1000 < arts.length)
    (hts : List.Chain' (fun a b : NewsArticle => a.timestamp < b.timestamp) arts)
    (hid : List.Pairwise (fun a b : NewsArticle => a.id ≠ b.id) arts) :
    (∀ (ttl now : Nat) (a : NewsArticle) (s : Store),
       ((storeNewsArticle ttl now a s).index).length ≤ 1000) ∧
    (∀ (ttl now : Nat) (a : NewsArticle) (s : Store), List.Pairwise pairLtP s.index →
       ∃ dropped, zadd s.index a.timestamp a.id
           = dropped ++ (storeNewsArticle ttl now a s).index ∧
         ∀ d ∈ dropped, ∀ k ∈ (storeNewsArticle ttl now a s).index, pairLtP d k) ∧
    (∀ limit offset now : Nat,
       (getNewsArticles limit offset now (ingestSeq ttlDays arts emptyStore)).length
           ≤ 1000 ∧
       ∀ a' ∈ arts.take (arts.length - 1000),
         ∀ b ∈ getNewsArticles limit offset now (ingestSeq ttlDays arts emptyStore),
           b.id ≠ a'.id) := by
  haveI : IsTrans NewsArticle (fun a b : NewsArticle => a.timestamp < b.timestamp) :=
    ⟨fun _ _ _ h1 h2 => lt_trans h1 h2⟩
  rw [List.chain'_iff_pairwise] at hts
  refine ⟨?_, ?_, ?_⟩
  · intro ttl now a s
    simp only [storeNewsArticle, trimIndex]
    rw [List.length_drop]
    omega
  · intro ttl now a s hp
    refine ⟨(zadd s.index a.timestamp a.id).take
      ((zadd s.index a.timestamp a.id).length - 1000), ?_, ?_⟩
    · simp only [storeNewsArticle, trimIndex]
      exact (List.take_append_drop _ _).symm
    · intro d hd k hk
      simp only [storeNewsArticle, trimIndex] at hk
      have hzp : List.Pairwise pairLtP (zadd s.index a.timestamp a.id) :=
        zadd_pairwise hp _ _
      have hsplit := List.take_append_drop
        ((zadd s.index a.timestamp a.id).length - 1000) (zadd s.index a.timestamp a.id)
      rw [← hsplit] at hzp
      exact (List.pairwise_append.mp hzp).2.2 d hd k hk
  · intro limit offset now
    constructor
    · have h1 := getNewsArticles_length_le_index limit offset now
        (ingestSeq ttlDays arts emptyStore)
      have h2 : (ingestSeq ttlDays arts emptyStore).index.length ≤ 1000 := by
        rw [ingestSeq_index_from_empty ttlDays arts hts hid]
        exact lastK_length_le _ _
      omega
    · intro a' ha' b hb
      have hkey : ∀ kv ∈ (ingestSeq ttlDays arts emptyStore).articles,
          (kv.2).article.id = kv.1 :=
        (reachable_inv (reachable_ingestSeq ttlDays Reachable.empty)).2.2
      rcases mem_getNewsArticles_id limit offset now _ hkey b hb with ⟨e, he, hbid⟩
      rw [ingestSeq_index_from_empty ttlDays arts hts hid] at he
      have he2 : e ∈ entriesOf (arts.drop (arts.length - 1000)) := by
        simpa [lastK, entriesOf, List.map_drop, List.length_map] using he
      rcases List.mem_map.mp he2 with ⟨c, hc, rfl⟩
      have hsplit := List.take_append_drop (arts.length - 1000) arts
      have hid' := hid
      rw [← hsplit] at hid'
      have hcross := (List.pairwise_append.mp hid').2.2 a' ha' c hc
      rw [hbid]
      exact Ne.symm hcross

set_option maxRecDepth 8192 in
/-- C3 witness: 1001 distinct articles with strictly increasing timestamps;
after ingesting them, list(3) stays within the bound and the single evicted
oldest article never appears in list output. -/
theorem claim3_capacity_witness :
    1000 < wArts.length ∧
    List.Chain' (fun a b : NewsArticle => a.timestamp < b.timestamp) wArts ∧
    List.Pairwise (fun a b : NewsArticle => a.id ≠ b.id) wArts ∧
    ((getNewsArticles 3 0 0 (ingestSeq 7 wArts emptyStore)).length ≤ 1000 ∧
     ∀ a' ∈ wArts.take (wArts.length - 1000),
       ∀ b ∈ getNewsArticles 3 0 0 (ingestSeq 7 wArts emptyStore), b.id ≠ a'.id) := by
  have hlen : 1000 < wArts.length := by simp [wArts]
  have hpw : List.Pairwise (fun a b : NewsArticle => a.timestamp < b.timestamp) wArts := by
    rw [wArts, List.pairwise_map]
    refine (List.pairwise_lt_range 1001).imp ?_
    intro i j hij
    simpa [wArt] using hij
  have hts : List.Chain' (fun a b : NewsArticle => a.timestamp < b.timestamp) wArts :=
    hpw.chain'
  have hid : List.Pairwise (fun a b : NewsArticle => a.id ≠ b.id) wArts := by
    rw [wArts, List.pairwise_map]
    refine (List.pairwise_lt_range 1001).imp ?_
    intro i j hij hc
    have h2 : i + 1 = j + 1 := by
      have h3 := congrArg (fun s : String => s.data.length) hc
      simpa [wArt, List.length_replicate] using h3
    omega
  exact ⟨hlen, hts, hid, (claim3_capacity 7 wArts hlen hts hid).2.2 3 0 0⟩

/-- C5 counterexample: in cexStoreExpired the single newest index entry is
expired while an older indexed article is live, so list(1) returns zero
articles even though one live indexed article exists — refuting the claim
that fewer than limit results only occur when fewer than limit live articles
exist. -/
theorem claim5_list_counterexample :
    (getNewsArticles 1 0 1000000 cexStoreExpired).length = 0 ∧
    1 ≤ ((cexStoreExpired.index).filter
        (fun e => (getNewsArticle e.2 1000000 cexStoreExpired).isSome)).length := by
  constructor
  · decide
  · decide

/-- C5 amended: for limit ≥ 1, list(limit, 0) returns exactly the live
entries among the first limit index ranks: its length equals the number of
live entries in that window (expired entries inside the window are silently
skipped and not backfilled), it never exceeds limit, and when the index holds
at least limit entries whose first limit ranks are all live, exactly limit
articles are returned. -/
theorem claim5_list_window (limit now : Nat) (s : Store) (h1 : 1 ≤ limit) :
    (getNewsArticles limit 0 now s).length
        = ((s.index.reverse.take limit).filter
            (fun e => (getNewsArticle e.2 now s).isSome)).length ∧
    (getNewsArticles limit 0 now s).length ≤ limit ∧
    (limit ≤ s.index.length →
      (∀ e ∈ s.index.reverse.take limit, (getNewsArticle e.2 now s).isSome = true) →
      (getNewsArticles limit 0 now s).length = limit) := by
  have hw := getNewsArticles_zero_offset limit now s h1
  refine ⟨?_, getNewsArticles_length_le limit now s h1, ?_⟩
  · rw [hw, length_filterMap_eq]
  · intro hlen hall
    rw [hw, length_filterMap_eq, List.filter_eq_self.mpr hall, List.length_take,
      List.length_reverse]
    omega

/-- C5 witness: a store with one live article returns exactly one article
for limit 1. -/
theorem claim5_list_window_witness :
    1 ≤ 1 ∧ 1 ≤ wStoreOne.index.length ∧
    (∀ e ∈ wStoreOne.index.reverse.take 1, (getNewsArticle e.2 3 wStoreOne).isSome = true) ∧
    (getNewsArticles 1 0 3 wStoreOne).length = 1 := by
  refine ⟨le_refl 1, by decide, by decide, ?_⟩
  exact (claim5_list_window 1 3 wStoreOne (le_refl 1)).2.2 (by decide) (by decide)

/-- C6 counterexample: cexStoreTie was produced by two puts with equal
timestamps; list(2) returns both articles, and the returned sequence is not
strictly descending in timestamp — refuting strictness for arbitrary store
states. -/
theorem claim6_order_counterexample :
    (getNewsArticles 2 0 10 cexStoreTie).length = 2 ∧
    ¬ List.Pairwise (fun x y : NewsArticle => y.timestamp < x.timestamp)
        (getNewsArticles 2 0 10 cexStoreTie) := by
  constructor
  · decide
  · decide

/-- C6 amended: for every reachable store, list returns articles in
non-increasing timestamp order (ties possible); and for any batch of puts
with strictly increasing timestamps whose entries are live at query time,
list(N) returns exactly the N most recently inserted articles, newest first,
in strictly descending timestamp order. -/
theorem claim6_list_order :
    (∀ s : Store, Reachable s → ∀ limit offset now : Nat,
      List.Pairwise (fun x y : NewsArticle => y.timestamp ≤ x.timestamp)
        (getNewsArticles limit offset now s)) ∧
    (∀ (ttlDays : Nat) (arts : List NewsArticle) (N now : Nat),
      1 ≤ N → N ≤ arts.length → N ≤ 1000 →
      List.Chain' (fun a b : NewsArticle => a.timestamp < b.timestamp) arts →
      List.Pairwise (fun a b : NewsArticle => a.id ≠ b.id) arts →
      (∀ a ∈ arts, now < a.timestamp + ttlSecs ttlDays) →
      getNewsArticles N 0 now (ingestSeq ttlDays arts emptyStore)
          = (arts.drop (arts.length - N)).reverse ∧
      List.Pairwise (fun x y : NewsArticle => y.timestamp < x.timestamp)
        (getNewsArticles N 0 now (ingestSeq ttlDays arts emptyStore))) := by
  constructor
  · intro s hs limit offset now
    exact getNewsArticles_pairwise_desc hs limit offset now
  · intro ttlDays arts N now hN1 hN2 hN3 hch haid hlive
    haveI : IsTrans NewsArticle (fun a b : NewsArticle => a.timestamp < b.timestamp) :=
      ⟨fun _ _ _ h1 h2 => lt_trans h1 h2⟩
    rw [List.chain'_iff_pairwise] at hch
    have heq := getNewsArticles_ingestSeq ttlDays arts N now hN1 hN3 hch haid hlive
    refine ⟨heq, ?_⟩
    rw [heq, List.pairwise_reverse]
    exact List.Pairwise.sublist (List.drop_sublist _ _) hch

/-- C6 witness: the non-increasing bound holds on a concrete reachable store,
and a three-article batch with timestamps 1,2,3 lists its two newest in
strictly descending order. -/
theorem claim6_list_order_witness :
    List.Pairwise (fun x y : NewsArticle => y.timestamp ≤ x.timestamp)
        (getNewsArticles 2 0 10 cexStoreTie) ∧
    (1 ≤ 2 ∧ 2 ≤ wSmallArts.length ∧ 2 ≤ 1000 ∧
     List.Chain' (fun a b : NewsArticle => a.timestamp < b.timestamp) wSmallArts ∧
     List.Pairwise (fun a b : NewsArticle => a.id ≠ b.id) wSmallArts ∧
     (∀ a ∈ wSmallArts, 4 < a.timestamp + ttlSecs 7)) ∧
    getNewsArticles 2 0 4 (ingestSeq 7 wSmallArts emptyStore)
        = (wSmallArts.drop (wSmallArts.length - 2)).reverse := by
  have hreach : Reachable cexStoreTie :=
    Reachable.put 7 5 (exArticle "b" "t2" 5)
      (Reachable.put 7 5 (exArticle "a" "t1" 5) Reachable.empty)
  have hch : List.Chain' (fun a b : NewsArticle => a.timestamp < b.timestamp) wSmallArts := by
    simp [wSmallArts, exArticle, List.chain'_cons]
  refine ⟨claim6_list_order.1 cexStoreTie hreach 2 0 10,
    ⟨by omega, by decide, by omega, hch, by decide, by decide⟩, ?_⟩
  exact (claim6_list_order.2 7 wSmallArts 2 4 (by omega) (by decide) (by omega)
    hch (by decide) (by decide)).1

/-- C7: on the fallback path the resolver answers with exactly the provider's
result list tagged live — including results the dedup gate skipped and
without merging in any cached matches — and the store it produces persists
exactly those provider results whose titles are not duplicates of articles
live at the moment each result is checked, as the spec-side sequential
persistence pass describes. -/
theorem claim7_fallback (uuid : Nat → String) (ctr : Nat) (nowIso : String)
    (ttlDays now : Nat) (provider : String → Except String (List SearchResult))
    (args : TargetedSearchArgs) (s : Store) (rs : List SearchResult)
    (hq : args.query ≠ "")
    (hlt : (cacheMatches args.query now s).length < jsOrNat args.maxResults 5)
    (hp : provider args.query = Except.ok rs) :
    handleTargetedSearch uuid ctr nowIso ttlDays now provider args s
      = ⟨Except.ok ⟨"tavily", args.query, rs.map (displayLive nowIso)⟩,
         (ingestResults uuid nowIso now ttlDays rs ctr s).1, true⟩ ∧
    (ingestResults uuid nowIso now ttlDays rs ctr s).1
      = (specFallbackPersist uuid nowIso now ttlDays rs ctr s).1 ∧
    (ingestResults uuid nowIso now ttlDays rs ctr s).2
      = (specFallbackPersist uuid nowIso now ttlDays rs ctr s).2.1 := by
  refine ⟨?_, ?_, ?_⟩
  · simp only [handleTargetedSearch]
    rw [if_neg hq]
    have hcond : ¬ (jsOrNat args.maxResults 5
        ≤ (searchNewsArticles args.query (jsOrNat args.maxResults 5) now s).length) := by
      rw [searchNewsArticles_length_cond]
      omega
    rw [if_neg hcond, hp]
  · rw [specFallbackPersist_eq]
  · rw [specFallbackPersist_eq]

/-- C7 witness: with an empty cache the resolver falls back; two provider
results with the same title are both present in the live-tagged response,
while the sequential dedup pass persists only the first. -/
theorem claim7_fallback_witness :
    ("eth" : String) ≠ "" ∧
    (cacheMatches "eth" 0 emptyStore).length < jsOrNat none 5 ∧
    handleTargetedSearch wUuid 0 "iso" 7 0 (fun _ => Except.ok [wSr "t", wSr "t"])
        ⟨"eth", none⟩ emptyStore
      = ⟨Except.ok ⟨"tavily", "eth", [wSr "t", wSr "t"].map (displayLive "iso")⟩,
         (ingestResults wUuid "iso" 0 7 [wSr "t", wSr "t"] 0 emptyStore).1, true⟩ := by
  have h := claim7_fallback wUuid 0 "iso" 7 0 (fun _ => Except.ok [wSr "t", wSr "t"])
    ⟨"eth", none⟩ emptyStore [wSr "t", wSr "t"] (by decide) (by decide) rfl
  exact ⟨by decide, by decide, h.1⟩

/-- C8 counterexample: a provider result whose score is present and equal to
0 yields an article whose stored score is 0.5, not 0 — the JavaScript `||`
default also fires on a present zero score, refuting the claim for score 0. -/
theorem claim8_score_counterexample :
    cexScoreResult.score = some 0 ∧ (buildArticle "u" "d" 3 cexScoreResult).score ≠ 0 := by
  refine ⟨rfl, ?_⟩
  simp only [buildArticle, cexScoreResult, jsOrScore]
  norm_num

/-- C8 amended: the constructed article's score equals the provider score
whenever that score is present and nonzero, and equals 0.5 exactly when the
provider score is absent or equal to 0. -/
theorem claim8_score_rule (uuid nowIso : String) (now : Nat) (r : SearchResult) :
    ((r.score = none ∨ r.score = some 0) → (buildArticle uuid nowIso now r).score = 1/2) ∧
    (∀ v : Rat, r.score = some v → v ≠ 0 → (buildArticle uuid nowIso now r).score = v) := by
  constructor
  · intro h
    rcases h with h | h <;> simp [buildArticle, jsOrScore, h]
  · intro v hv hvne
    simp [buildArticle, jsOrScore, hv, hvne]

/-- C8 witness: a provider result with present nonzero score 1 keeps its
score in the constructed article. -/
theorem claim8_score_rule_witness :
    wScoreResult.score = some 1 ∧ (1 : Rat) ≠ 0 ∧
    (buildArticle "u" "d" 3 wScoreResult).score = 1 := by
  refine ⟨rfl, by norm_num, ?_⟩
  exact (claim8_score_rule "u" "d" 3 wScoreResult).2 1 rfl (by norm_num)

end NewsMcp
